import Mathlib

/-!
Verification development for the traction-backend chat/extraction/generation
core (`app/controllers/chat_controller.py`, `app/core/ai_generators.py`).

The Python values stored in a document's JSON `fields` column are modelled by
an inductive `Val` (JSON-serialisable Python values: `None`, `bool`, `str`,
`int`, `list`, `dict`).  Python dicts are modelled as association lists with
unique keys in insertion order; `alInsert` mirrors Python dict assignment
(replace in place, else append) and `alGet` mirrors `dict.get`.
-/

namespace Traction

/-- JSON-serialisable Python value, as stored in the `fields` JSON column and
produced by `model_dump()` of the extraction pydantic models. -/
inductive Val : Type where
  | vnull : Val
  | vbool : Bool → Val
  | vint : Int → Val
  | vstr : String → Val
  | vlist : List Val → Val
  | vdict : List (String × Val) → Val

/-- Association list keyed by strings: the model of a Python dict (unique
keys, insertion order). -/
abbrev AListV (β : Type) : Type := List (String × β)

/-- Python `d.get(k)` (with default `None` reported as `none`). -/
def alGet {β : Type} : AListV β → String → Option β
  | [], _ => none
  | (k0, v0) :: rest, k => if k0 = k then some v0 else alGet rest k

/-- Python `d[k] = v`: replace the value in place if the key is present,
otherwise append the new key at the end (dict insertion order). -/
def alInsert {β : Type} : AListV β → String → β → AListV β
  | [], k, v => [(k, v)]
  | (k0, v0) :: rest, k, v =>
      if k0 = k then (k, v) :: rest else (k0, v0) :: alInsert rest k v

/-- Keys of a dict, in insertion order. -/
def alKeys {β : Type} (l : AListV β) : List String := l.map Prod.fst

/-- A field bag: the dict stored in `ProjectDocument.fields`. -/
abbrev Bag : Type := AListV Val

/-- Python `value is True` (identity test against the bool `True`). -/
def Val.isTrue : Val → Bool
  | .vbool true => true
  | _ => false

/-- Python `value is None`. -/
def Val.isNull : Val → Bool
  | .vnull => true
  | _ => false

/-- Python truthiness of a JSON value (`bool(v)`). -/
def Val.truthy : Val → Bool
  | .vnull => false
  | .vbool b => b
  | .vint n => !(n == 0)
  | .vstr s => !(s == "")
  | .vlist xs => !xs.isEmpty
  | .vdict kvs => !kvs.isEmpty

/-- Truthiness of `d.get(k, False)`: absent keys count as `False`. -/
def truthyOpt : Option Val → Bool
  | none => false
  | some v => v.truthy

/-- The guard `old is not None and old != [] and old != "" and old != {}` of
the merge loop, applied to `merged.get(key)`: the existing value is
"substantive". -/
def substantiveOld : Option Val → Bool
  | none => false
  | some .vnull => false
  | some (.vbool _) => true
  | some (.vint _) => true
  | some (.vstr s) => !(s == "")
  | some (.vlist xs) => !xs.isEmpty
  | some (.vdict kvs) => !kvs.isEmpty

/-- The incoming value is an empty list or an empty string (the two
non-substantive incoming shapes the merge loop refuses to write over a
substantive existing value). -/
def Val.isEmptyStrOrList : Val → Bool
  | .vstr s => s == ""
  | .vlist xs => xs.isEmpty
  | _ => false

/-- One iteration of the merge loop of `_handle_doc_mode` (lines 202-221 of
`chat_controller.py`) over one `(key, value)` item of the extracted fields. -/
def mergeStep (merged : Bag) (kv : String × Val) : Bag :=
  if kv.1 = "is_complete" then
    if kv.2.isTrue then alInsert merged "is_complete" (Val.vbool true) else merged
  else if kv.2.isNull then merged
  else if substantiveOld (alGet merged kv.1) && kv.2.isEmptyStrOrList then merged
  else alInsert merged kv.1 kv.2

/-- The whole merge loop: fold the extracted items over a copy of the
existing bag (`merged = dict(existing)` followed by the `for` loop). -/
def mergeFields (existing : Bag) (newFields : Bag) : Bag :=
  newFields.foldl mergeStep existing

/-- Per-key result of the merge, as a function of the existing value for that
key: the specification-level view of `mergeStep`, proved to agree with the
loop in `alGet_mergeFields`. -/
def mergeValue (k : String) (old : Option Val) (v : Val) : Option Val :=
  if k = "is_complete" then
    if v.isTrue then some (Val.vbool true) else old
  else if v.isNull then old
  else if substantiveOld old && v.isEmptyStrOrList then old
  else some v

/-- A project document record (`ProjectDocument` columns the chat controller
reads and writes). -/
structure DocRec : Type where
  id : Nat
  type : String
  title : String
  content : String
  status : String
  fields : Option Bag

/-- The per-record body of the merge loop of `_handle_doc_mode` (lines
182-230): skip frozen records, otherwise merge the extracted section into the
fields and resynchronise the record status with the completion flag.
`section?` is `None` when the document type has no extraction attribute or
the agent returned no section for it. -/
def mergeDocRecord (doc : DocRec) (section? : Option Bag) : DocRec :=
  let existing := doc.fields.getD []
  if truthyOpt (alGet existing "is_complete") then doc
  else
    match section? with
    | none => doc
    | some newFields =>
        let merged := mergeFields existing newFields
        { doc with
            fields := some merged,
            status := if truthyOpt (alGet merged "is_complete") then "ready" else "pending" }

/-- The `DOCUMENT_TYPE_TO_ATTR` lookup table of `schemas/extraction.py`. -/
def DOCUMENT_TYPE_TO_ATTR : AListV String :=
  [("product-description", "product_description"),
   ("timeline", "timeline"),
   ("swot-analysis", "swot"),
   ("market-research", "market_research"),
   ("financial-projections", "financial_projections"),
   ("funding-requirements", "funding_requirements"),
   ("product-forecast", "product_forecast"),
   ("competitive-analysis", "competitive_analysis"),
   ("executive-summary", "executive_summary")]

/-- The `DOCUMENT_TYPE_TITLES` lookup table of `schemas/extraction.py`. -/
def DOCUMENT_TYPE_TITLES : AListV String :=
  [("product-description", "Product Description"),
   ("timeline", "Timeline"),
   ("swot-analysis", "SWOT Analysis"),
   ("market-research", "Market Research"),
   ("financial-projections", "Financial Projections"),
   ("funding-requirements", "Funding Requirements"),
   ("product-forecast", "Product Forecast"),
   ("competitive-analysis", "Competitive Analysis"),
   ("executive-summary", "Executive Summary")]

/-- One entry of the ephemeral extraction state built by
`build_extraction_state`: the dict `{"is_complete": ..., "fields": ...}`. -/
structure StateInfo : Type where
  is_complete : Val
  fields : Bag

/-- The extraction state: `{doc_type -> {is_complete, fields}}`. -/
abbrev ExtractionState : Type := AListV StateInfo

/-- The `{is_complete, fields}` entry built from one record's raw fields
(`build_extraction_state` body, `ai_generators.py` lines 256-267). -/
def stateInfoOf (raw? : Option Bag) : StateInfo :=
  let raw := raw?.getD []
  { is_complete := (alGet raw "is_complete").getD (Val.vbool false),
    fields := raw.filter (fun kv => !(kv.1 == "is_complete")) }

/-- The `build_extraction_state` helper of `ai_generators.py`: a dict keyed
by document type. -/
def build_extraction_state (documents : List DocRec) : ExtractionState :=
  documents.foldl (fun st doc => alInsert st doc.type (stateInfoOf doc.fields)) []

/-- The `check_all_complete` gate of `ai_generators.py` (lines 271-278):
false when fewer types are represented than `len(DOCUMENT_TYPE_TO_ATTR)`,
else true when every entry's `is_complete` is truthy. -/
def check_all_complete (extraction_state : ExtractionState) : Bool :=
  if extraction_state.length < DOCUMENT_TYPE_TO_ATTR.length then false
  else extraction_state.all (fun p => truthyOpt (some p.2.is_complete))

end Traction

namespace Traction

theorem alGet_insert_self {β : Type} (l : AListV β) (k : String) (v : β) :
    alGet (alInsert l k v) k = some v := by
  induction l with
  | nil => simp [alInsert, alGet]
  | cons hd tl ih =>
      by_cases h : hd.1 = k
      · simp [alInsert, alGet, h]
      · simp [alInsert, alGet, h, ih]

theorem alGet_insert_ne {β : Type} (l : AListV β) (k : String) (v : β)
    (k' : String) (h : k ≠ k') : alGet (alInsert l k v) k' = alGet l k' := by
  induction l with
  | nil => simp [alInsert, alGet, h]
  | cons hd tl ih =>
      by_cases h0 : hd.1 = k
      · simp [alInsert, alGet, h0, h]
      · simp [alInsert, alGet, h0, ih]

theorem alInsert_get_eq {β : Type} (l : AListV β) (k : String) (v : β)
    (h : alGet l k = some v) : alInsert l k v = l := by
  induction l with
  | nil => simp [alGet] at h
  | cons hd tl ih =>
      obtain ⟨k0, v0⟩ := hd
      by_cases h0 : k0 = k
      · subst h0
        simp only [alGet, if_pos rfl] at h
        cases h
        simp [alInsert]
      · simp only [alGet, if_neg h0] at h
        simp [alInsert, h0, ih h]

theorem alGet_not_mem_none {β : Type} (l : AListV β) (k : String)
    (h : k ∉ alKeys l) : alGet l k = none := by
  induction l with
  | nil => rfl
  | cons hd tl ih =>
      obtain ⟨k0, v0⟩ := hd
      simp only [alKeys, List.map_cons, List.mem_cons] at h
      push_neg at h
      simp only [alGet, if_neg (fun hh : k0 = k => h.1 hh.symm)]
      exact ih (by simpa [alKeys] using h.2)

theorem alGet_mergeStep_self (merged : Bag) (k : String) (v : Val) :
    alGet (mergeStep merged (k, v)) k = mergeValue k (alGet merged k) v := by
  unfold mergeStep mergeValue
  by_cases hic : k = "is_complete"
  · subst hic
    by_cases ht : v.isTrue
    · simp [ht, alGet_insert_self]
    · simp [ht]
  · by_cases hn : v.isNull
    · simp [hic, hn]
    · by_cases hs : substantiveOld (alGet merged k) && v.isEmptyStrOrList
      · simp [hic, hn, hs]
      · simp [hic, hn, hs, alGet_insert_self]

theorem alGet_mergeStep_ne (merged : Bag) (k : String) (v : Val)
    (k' : String) (h : k ≠ k') :
    alGet (mergeStep merged (k, v)) k' = alGet merged k' := by
  unfold mergeStep
  by_cases hic : k = "is_complete"
  · subst hic
    by_cases ht : v.isTrue
    · simp [ht, alGet_insert_ne _ _ _ _ h]
    · simp [ht]
  · by_cases hn : v.isNull
    · simp [hic, hn]
    · by_cases hs : substantiveOld (alGet merged k) && v.isEmptyStrOrList
      · simp [hic, hn, hs]
      · simp [hic, hn, hs, alGet_insert_ne _ _ _ _ h]

theorem mergeFields_cons (e : Bag) (kv : String × Val) (u : Bag) :
    mergeFields e (kv :: u) = mergeFields (mergeStep e kv) u := rfl

theorem alGet_mergeFields_not_mem (u : Bag) :
    ∀ (e : Bag) (k : String), k ∉ alKeys u →
      alGet (mergeFields e u) k = alGet e k := by
  induction u with
  | nil => intro e k _; rfl
  | cons hd tl ih =>
      intro e k hk
      obtain ⟨k0, v0⟩ := hd
      simp only [alKeys, List.map_cons, List.mem_cons] at hk
      push_neg at hk
      rw [mergeFields_cons, ih _ _ (by simpa [alKeys] using hk.2)]
      exact alGet_mergeStep_ne e k0 v0 k (fun h => hk.1 h.symm)

theorem alGet_mergeFields (u : Bag) :
    ∀ (e : Bag) (k : String), (alKeys u).Nodup →
      alGet (mergeFields e u) k =
        (alGet u k).elim (alGet e k) (fun v => mergeValue k (alGet e k) v) := by
  induction u with
  | nil => intro e k _; rfl
  | cons hd tl ih =>
      intro e k hnd
      obtain ⟨k0, v0⟩ := hd
      simp only [alKeys, List.map_cons, List.nodup_cons] at hnd
      obtain ⟨hmem, hnd2⟩ := hnd
      rw [mergeFields_cons]
      by_cases hk : k0 = k
      · subst hk
        rw [alGet_mergeFields_not_mem tl (mergeStep e (k0, v0)) k0
              (by simpa [alKeys] using hmem)]
        rw [alGet_mergeStep_self]
        simp [alGet]
      · rw [ih (mergeStep e (k0, v0)) k hnd2]
        have hcons : alGet ((k0, v0) :: tl) k = alGet tl k := by
          simp [alGet, hk]
        rw [hcons, alGet_mergeStep_ne e k0 v0 k hk]

theorem mergeFields_flag (u : Bag) :
    ∀ e : Bag,
      alGet (mergeFields e u) "is_complete" = some (Val.vbool true) ∨
      alGet (mergeFields e u) "is_complete" = alGet e "is_complete" := by
  induction u with
  | nil => intro e; exact Or.inr rfl
  | cons hd tl ih =>
      intro e
      obtain ⟨k0, v0⟩ := hd
      rw [mergeFields_cons]
      rcases ih (mergeStep e (k0, v0)) with h | h
      · exact Or.inl h
      · rw [h]
        by_cases hk : k0 = "is_complete"
        · subst hk
          rw [alGet_mergeStep_self]
          unfold mergeValue
          by_cases ht : v0.isTrue
          · simp [ht]
          · simp [ht]
        · exact Or.inr (alGet_mergeStep_ne e k0 v0 "is_complete" hk)

theorem substantiveOld_empty (v : Val) (he : v.isEmptyStrOrList = true) :
    substantiveOld (some v) = false := by
  cases v <;> simp_all [Val.isEmptyStrOrList, substantiveOld]

theorem mergeStep_again (s t : Bag) (k : String) (v : Val)
    (h : alGet t k = mergeValue k (alGet s k) v) :
    mergeStep t (k, v) = t := by
  unfold mergeStep
  unfold mergeValue at h
  by_cases hic : k = "is_complete"
  · subst hic
    rw [if_pos rfl] at h ⊢
    by_cases ht : v.isTrue = true
    · rw [if_pos ht] at h ⊢
      exact alInsert_get_eq t "is_complete" (Val.vbool true) h
    · rw [if_neg ht]
  · rw [if_neg hic] at h ⊢
    by_cases hn : v.isNull = true
    · rw [if_pos hn]
    · rw [if_neg hn] at h ⊢
      by_cases hs : (substantiveOld (alGet s k) && v.isEmptyStrOrList) = true
      · rw [if_pos hs] at h
        rw [if_pos (by rw [h]; exact hs)]
      · rw [if_neg hs] at h
        have hsub : (substantiveOld (alGet t k) && v.isEmptyStrOrList) = false := by
          rw [h]
          by_cases he : v.isEmptyStrOrList = true
          · simp [substantiveOld_empty v he]
          · simp [eq_false_of_ne_true he]
        rw [if_neg (by simp [hsub])]
        exact alInsert_get_eq t k v h

theorem mergeFields_idem (u : Bag) (hnd : (alKeys u).Nodup) :
    ∀ s : Bag, mergeFields (mergeFields s u) u = mergeFields s u := by
  induction u with
  | nil => intro s; rfl
  | cons hd tl ih =>
      intro s
      obtain ⟨k0, v0⟩ := hd
      simp only [alKeys, List.map_cons, List.nodup_cons] at hnd
      obtain ⟨hmem, hnd2⟩ := hnd
      rw [mergeFields_cons, mergeFields_cons]
      have hget : alGet (mergeFields (mergeStep s (k0, v0)) tl) k0 =
          alGet (mergeStep s (k0, v0)) k0 :=
        alGet_mergeFields_not_mem tl _ k0 (by simpa [alKeys] using hmem)
      rw [mergeStep_again s _ k0 v0 (by rw [hget, alGet_mergeStep_self])]
      exact ih hnd2 (mergeStep s (k0, v0))

theorem truthyOpt_some (v : Val) : truthyOpt (some v) = v.truthy := rfl

/-- An all-complete entry used in concrete gate states. -/
def completeInfo : StateInfo := { is_complete := Val.vbool true, fields := [] }

/-- An incomplete entry used in concrete gate states. -/
def incompleteInfo : StateInfo := { is_complete := Val.vbool false, fields := [] }

/-- Concrete extraction state: all nine known types, all complete. -/
def gateNineComplete : ExtractionState :=
  DOCUMENT_TYPE_TO_ATTR.map (fun p => (p.1, completeInfo))

/-- Concrete extraction state: all nine known types, eight complete. -/
def gateNineEight : ExtractionState :=
  (DOCUMENT_TYPE_TO_ATTR.take 8).map (fun p => (p.1, completeInfo))
    ++ [("executive-summary", incompleteInfo)]

/-- Concrete extraction state: only seven types, all seven complete. -/
def gateSevenComplete : ExtractionState :=
  (DOCUMENT_TYPE_TO_ATTR.take 7).map (fun p => (p.1, completeInfo))

/-- Concrete extraction state: ten distinct types (the nine known ones plus a
stray), every entry complete. -/
def gateTenComplete : ExtractionState :=
  gateNineComplete ++ [("extra-type", completeInfo)]

/-- C1 counterexample: the gate is not equivalent to "the number of known
document types equals the number of types represented and all are complete".
On a ten-type state, all complete, `check_all_complete` returns true although
ten is not nine: the code only checks `len(state) < 9`. -/
theorem C1_gate_counterexample :
    ¬ (check_all_complete gateTenComplete = true ↔
        (gateTenComplete.length = DOCUMENT_TYPE_TO_ATTR.length ∧
          gateTenComplete.all (fun p => p.2.is_complete.truthy) = true)) := by
  decide

/-- C1 (amended): `check_all_complete` returns true iff at least nine types
are represented and every represented entry's `is_complete` flag is truthy;
in particular 9 present/8 complete gives false, 9 present/9 complete gives
true, and 7 present gives false even with all 7 complete. -/
theorem C1_gate_characterisation :
    (∀ st : ExtractionState,
        check_all_complete st = true ↔
          (DOCUMENT_TYPE_TO_ATTR.length ≤ st.length ∧
            st.all (fun p => p.2.is_complete.truthy) = true))
    ∧ check_all_complete gateNineEight = false
    ∧ check_all_complete gateNineComplete = true
    ∧ check_all_complete gateSevenComplete = false := by
  refine ⟨?_, by decide, by decide, by decide⟩
  intro st
  unfold check_all_complete
  by_cases h : st.length < DOCUMENT_TYPE_TO_ATTR.length
  · rw [if_pos h]
    simp [show ¬ (DOCUMENT_TYPE_TO_ATTR.length ≤ st.length) from by omega]
  · rw [if_neg h]
    simp [Nat.le_of_not_lt h, truthyOpt]

/-- C1 witness: the characterisation applied to the concrete nine-type
all-complete state. -/
theorem C1_gate_characterisation_witness :
    check_all_complete gateNineComplete = true ↔
      (DOCUMENT_TYPE_TO_ATTR.length ≤ gateNineComplete.length ∧
        gateNineComplete.all (fun p => p.2.is_complete.truthy) = true) :=
  C1_gate_characterisation.1 gateNineComplete

/-- A frozen concrete record: `is_complete` already true in its bag. -/
def frozenDoc : DocRec :=
  { id := 1, type := "timeline", title := "Timeline", content := "",
    status := "ready", fields := some [("is_complete", Val.vbool true),
                                       ("current_stage", Val.vstr "MVP")] }

/-- C2: a record whose bag carries `is_complete == True` is frozen — any
later merge call leaves the whole record unchanged; at the bag level the
completion flag never reverts from true, and an incoming `is_complete` of
False (or an absent flag) leaves the stored flag unchanged. -/
theorem C2_completion_monotone :
    (∀ (doc : DocRec) (e : Bag) (section? : Option Bag),
        doc.fields = some e → alGet e "is_complete" = some (Val.vbool true) →
        mergeDocRecord doc section? = doc)
    ∧ (∀ (e u : Bag),
        alGet e "is_complete" = some (Val.vbool true) →
        alGet (mergeFields e u) "is_complete" = some (Val.vbool true))
    ∧ (∀ (e u : Bag), (alKeys u).Nodup →
        (alGet u "is_complete" = none ∨ alGet u "is_complete" = some (Val.vbool false)) →
        alGet (mergeFields e u) "is_complete" = alGet e "is_complete") := by
  refine ⟨?_, ?_, ?_⟩
  · intro doc e sec hf hic
    unfold mergeDocRecord
    rw [hf]
    simp only [Option.getD_some, hic, truthyOpt, Val.truthy, if_true]
  · intro e u hic
    rcases mergeFields_flag u e with h | h
    · exact h
    · rw [h, hic]
  · intro e u hnd hcase
    rw [alGet_mergeFields u e "is_complete" hnd]
    rcases hcase with h | h
    · rw [h]
      rfl
    · rw [h]
      simp [mergeValue, Val.isTrue]

/-- C2 witness: the frozen record ignores an aggressive update, a true flag
survives an incoming false, and an incoming false leaves a stored absent
flag absent. -/
theorem C2_completion_monotone_witness :
    mergeDocRecord frozenDoc (some [("current_stage", Val.vstr "launched"),
                                    ("is_complete", Val.vbool false)]) = frozenDoc
    ∧ alGet (mergeFields [("is_complete", Val.vbool true)]
              [("is_complete", Val.vbool false)]) "is_complete"
        = some (Val.vbool true)
    ∧ alGet (mergeFields [("a", Val.vstr "v")] [("is_complete", Val.vbool false)])
          "is_complete"
        = alGet [("a", Val.vstr "v")] "is_complete" :=
  ⟨C2_completion_monotone.1 frozenDoc _ _ rfl rfl,
   C2_completion_monotone.2.1 _ _ rfl,
   C2_completion_monotone.2.2 _ _ (by decide) (Or.inr rfl)⟩

/-- C3: the per-key merge never loses captured facts — a null incoming value
or an absent key never overwrites the existing value, and a substantive
existing value is never replaced by an incoming empty string or empty list;
in particular an incoming empty string leaves an existing "value" intact. -/
theorem C3_merge_non_destructive :
    (∀ (e u : Bag) (k : String), (alKeys u).Nodup →
        (alGet u k = none ∨ alGet u k = some Val.vnull ∨
          (substantiveOld (alGet e k) = true ∧
            (alGet u k = some (Val.vstr "") ∨ alGet u k = some (Val.vlist [])))) →
        alGet (mergeFields e u) k = alGet e k)
    ∧ alGet (mergeFields [("x", Val.vstr "value")] [("x", Val.vstr "")]) "x"
        = some (Val.vstr "value") := by
  constructor
  · intro e u k hnd hcase
    rw [alGet_mergeFields u e k hnd]
    rcases hcase with h | h | ⟨hsub, h | h⟩
    · rw [h]
      rfl
    · rw [h]
      by_cases hic : k = "is_complete" <;>
        simp [mergeValue, hic, Val.isTrue, Val.isNull]
    · rw [h]
      by_cases hic : k = "is_complete" <;>
        simp [mergeValue, hic, Val.isTrue, Val.isNull, Val.isEmptyStrOrList, hsub]
    · rw [h]
      by_cases hic : k = "is_complete" <;>
        simp [mergeValue, hic, Val.isTrue, Val.isNull, Val.isEmptyStrOrList, hsub]
  · rfl

/-- C3 witness: the first conjunct applied to the claim's own example,
an incoming empty string over an existing substantive "value". -/
theorem C3_merge_non_destructive_witness :
    alGet (mergeFields [("x", Val.vstr "value")] [("x", Val.vstr "")]) "x"
      = alGet [("x", Val.vstr "value")] "x" :=
  C3_merge_non_destructive.1 _ _ "x" (by decide)
    (Or.inr (Or.inr ⟨rfl, Or.inl rfl⟩))

/-- A fresh pending record with no fields yet. -/
def pendingDoc : DocRec :=
  { id := 2, type := "timeline", title := "Timeline", content := "",
    status := "pending", fields := none }

/-- C9: merging one and the same extracted update (a dict, so its keys are
distinct) twice in succession into an initially empty bag gives exactly the
bag a single merge gives, both at the bag level and for the whole record. -/
theorem C9_merge_idempotent :
    ∀ u : Bag, (alKeys u).Nodup →
      (mergeFields (mergeFields [] u) u = mergeFields [] u
        ∧ ∀ doc : DocRec, doc.fields = none →
            mergeDocRecord (mergeDocRecord doc (some u)) (some u)
              = mergeDocRecord doc (some u)) := by
  intro u hnd
  refine ⟨mergeFields_idem u hnd [], ?_⟩
  intro doc hf
  have hbag : mergeFields (mergeFields [] u) u = mergeFields [] u :=
    mergeFields_idem u hnd []
  by_cases h1 : truthyOpt (alGet (mergeFields [] u) "is_complete") = true
  · unfold mergeDocRecord
    rw [hf]
    simp [alGet, truthyOpt, h1, hbag]
  · unfold mergeDocRecord
    rw [hf]
    simp [alGet, truthyOpt, h1, hbag]

/-- C9 witness: a two-key update merged twice into the empty bag, once at
the bag level and once through the record-level merge. -/
theorem C9_merge_idempotent_witness :
    mergeFields (mergeFields [] [("current_stage", Val.vstr "MVP"),
                                 ("is_complete", Val.vbool true)])
        [("current_stage", Val.vstr "MVP"), ("is_complete", Val.vbool true)]
      = mergeFields [] [("current_stage", Val.vstr "MVP"),
                        ("is_complete", Val.vbool true)]
    ∧ mergeDocRecord (mergeDocRecord pendingDoc
          (some [("current_stage", Val.vstr "MVP"), ("is_complete", Val.vbool true)]))
        (some [("current_stage", Val.vstr "MVP"), ("is_complete", Val.vbool true)])
      = mergeDocRecord pendingDoc
          (some [("current_stage", Val.vstr "MVP"), ("is_complete", Val.vbool true)]) :=
  ⟨(C9_merge_idempotent _ (by decide)).1,
   (C9_merge_idempotent _ (by decide)).2 pendingDoc rfl⟩

/-- C10: for a record that is not frozen and receives an extracted section,
the post-merge status is "ready" exactly when the merged bag's completion
flag is the boolean True (and "pending" otherwise); an extraction turn alone
can flip a pending record to ready without touching its content; and the
merge never writes a false completion flag that was not already stored. -/
theorem C10_status_sync :
    (∀ (doc : DocRec) (u : Bag),
        truthyOpt (alGet (doc.fields.getD []) "is_complete") = false →
        (((mergeDocRecord doc (some u)).status = "ready" ↔
            alGet (mergeFields (doc.fields.getD []) u) "is_complete"
              = some (Val.vbool true))
          ∧ ((mergeDocRecord doc (some u)).status = "ready" ∨
              (mergeDocRecord doc (some u)).status = "pending")))
    ∧ ((mergeDocRecord pendingDoc (some [("is_complete", Val.vbool true)])).status
        = "ready"
       ∧ (mergeDocRecord pendingDoc (some [("is_complete", Val.vbool true)])).content
          = pendingDoc.content)
    ∧ (∀ (e u : Bag),
        alGet (mergeFields e u) "is_complete" = some (Val.vbool false) →
        alGet e "is_complete" = some (Val.vbool false)) := by
  refine ⟨?_, ⟨rfl, rfl⟩, ?_⟩
  · intro doc u hfr
    have hflag := mergeFields_flag u (doc.fields.getD [])
    unfold mergeDocRecord
    rw [if_neg (by rw [hfr]; simp)]
    simp only []
    by_cases hr : truthyOpt (alGet (mergeFields (doc.fields.getD []) u) "is_complete") = true
    · rw [if_pos hr]
      constructor
      · constructor
        · intro _
          rcases hflag with h | h
          · exact h
          · rw [h] at hr
            rw [hfr] at hr
            cases hr
        · intro _
          rfl
      · exact Or.inl rfl
    · rw [if_neg hr]
      constructor
      · constructor
        · intro hcon
          exact absurd hcon (by decide)
        · intro hflag2
          rw [hflag2] at hr
          exact absurd rfl hr
      · exact Or.inr rfl
  · intro e u hfalse
    rcases mergeFields_flag u e with h | h
    · rw [h] at hfalse
      cases hfalse
    · rw [h] at hfalse
      exact hfalse

/-- C10 witness: the status synchronisation applied to a concrete non-frozen
record receiving a completing update, and the no-false-write conjunct at a
concrete bag. -/
theorem C10_status_sync_witness :
    (((mergeDocRecord pendingDoc (some [("is_complete", Val.vbool true)])).status
        = "ready" ↔
      alGet (mergeFields (pendingDoc.fields.getD [])
          [("is_complete", Val.vbool true)]) "is_complete"
        = some (Val.vbool true))
     ∧ ((mergeDocRecord pendingDoc (some [("is_complete", Val.vbool true)])).status
          = "ready" ∨
        (mergeDocRecord pendingDoc (some [("is_complete", Val.vbool true)])).status
          = "pending"))
    ∧ alGet [("is_complete", Val.vbool false)] "is_complete"
        = some (Val.vbool false) :=
  ⟨C10_status_sync.1 pendingDoc [("is_complete", Val.vbool true)] rfl,
   C10_status_sync.2.2 [("is_complete", Val.vbool false)] [] rfl⟩

/-- Lowercase hexadecimal digit. -/
def hexDigitChar (n : Nat) : Char :=
  if n < 10 then Char.ofNat (48 + n) else Char.ofNat (87 + n)

/-- Four lowercase hex digits (for the JSON \u escape and the digest). -/
def hex4 (n : Nat) : String :=
  String.mk [hexDigitChar (n / 4096 % 16), hexDigitChar (n / 256 % 16),
             hexDigitChar (n / 16 % 16), hexDigitChar (n % 16)]

/-- Eight lowercase hex digits of one 32-bit word of the digest. -/
def hex8 (n : Nat) : String := hex4 (n / 65536 % 65536) ++ hex4 (n % 65536)

/-- Escaping of one character exactly as `json.dumps` with the default
`ensure_ascii=True` does: short escapes for quote, backslash and the five
control characters that have them, printable ASCII verbatim, everything else
as \uXXXX (with a surrogate pair beyond the BMP). -/
def escapeChar (c : Char) : String :=
  if c = '"' then "\\\""
  else if c = '\\' then "\\\\"
  else if c = '\n' then "\\n"
  else if c = '\r' then "\\r"
  else if c = '\t' then "\\t"
  else if c.toNat = 8 then "\\b"
  else if c.toNat = 12 then "\\f"
  else if 32 ≤ c.toNat ∧ c.toNat ≤ 126 then String.singleton c
  else if c.toNat ≤ 65535 then "\\u" ++ hex4 c.toNat
  else
    let v := c.toNat - 65536
    "\\u" ++ hex4 (55296 + v / 1024) ++ "\\u" ++ hex4 (56320 + v % 1024)

/-- A JSON string literal as `json.dumps` renders it. -/
def encodeString (s : String) : String :=
  "\"" ++ String.join (s.data.map escapeChar) ++ "\""

/-- Ordering of serialised dict entries by their raw key, the order
`sort_keys=True` sorts items in (Python sorts `str` by code points, which is
exactly the `String` linear order). -/
def keyLE (p q : String × String) : Prop := p.1 ≤ q.1

instance : DecidableRel keyLE := fun p q => inferInstanceAs (Decidable (p.1 ≤ q.1))

instance : IsTotal (String × String) keyLE := ⟨fun a b => le_total a.1 b.1⟩

instance : IsTrans (String × String) keyLE := ⟨fun _ _ _ h1 h2 => le_trans h1 h2⟩

mutual

/-- The canonical serialisation `json.dumps(v, sort_keys=True, default=str)`
with the default separators `", "` and `": "`: dict items are rendered with
their keys sorted.  Every value reachable from a fields column is JSON
serialisable, so `default=str` is never invoked. -/
def serializeVal : Val → String
  | .vnull => "null"
  | .vbool b => cond b "true" "false"
  | .vint n => toString n
  | .vstr s => encodeString s
  | .vlist xs => "[" ++ String.intercalate ", " (serializeListVals xs) ++ "]"
  | .vdict kvs =>
      "\x7b" ++ String.intercalate ", "
        (((serializePairs kvs).insertionSort keyLE).map
          (fun p => encodeString p.1 ++ ": " ++ p.2)) ++ "\x7d"

/-- Serialise the elements of a JSON array in order. -/
def serializeListVals : List Val → List String
  | [] => []
  | v :: vs => serializeVal v :: serializeListVals vs

/-- Serialise the values of dict items, keeping the raw key for sorting. -/
def serializePairs : List (String × Val) → List (String × String)
  | [] => []
  | (k, v) :: rest => (k, serializeVal v) :: serializePairs rest

end

/-- The Python value `json.dumps` receives in `compute_fields_hash`: the list
of per-document fields dicts, `None` for a document with no fields yet. -/
def embedFields (df : Option Bag) : Val :=
  match df with
  | none => Val.vnull
  | some b => Val.vdict b

/-- The canonical serialisation of the whole `documents_fields` list. -/
def canonicalFieldsJson (documents_fields : List (Option Bag)) : String :=
  serializeVal (Val.vlist (documents_fields.map embedFields))

/-- UTF-8 bytes of the canonical string (`canonical.encode()`): the canonical
serialisation is pure ASCII because `ensure_ascii` escaping leaves only code
points below 128, so each byte is the code point itself. -/
def strBytes (s : String) : List Nat := s.data.map Char.toNat

/-- Reduction of an intermediate sum to a 32-bit word. -/
def w32 (x : Nat) : Nat := x % 4294967296

/-- Right rotation of a 32-bit word. -/
def rotr32 (x n : Nat) : Nat := w32 (x / 2 ^ n + x % 2 ^ n * 2 ^ (32 - n))

/-- Logical right shift of a 32-bit word. -/
def shr32 (x n : Nat) : Nat := x / 2 ^ n

/-- SHA-256 Ch function (FIPS 180-4). -/
def sha2ch (x y z : Nat) : Nat :=
  Nat.xor (Nat.land x y) (Nat.land (4294967295 - w32 x) z)

/-- SHA-256 Maj function. -/
def sha2maj (x y z : Nat) : Nat :=
  Nat.xor (Nat.xor (Nat.land x y) (Nat.land x z)) (Nat.land y z)

/-- SHA-256 big Sigma0. -/
def bsig0 (x : Nat) : Nat := Nat.xor (Nat.xor (rotr32 x 2) (rotr32 x 13)) (rotr32 x 22)

/-- SHA-256 big Sigma1. -/
def bsig1 (x : Nat) : Nat := Nat.xor (Nat.xor (rotr32 x 6) (rotr32 x 11)) (rotr32 x 25)

/-- SHA-256 small sigma0. -/
def ssig0 (x : Nat) : Nat := Nat.xor (Nat.xor (rotr32 x 7) (rotr32 x 18)) (shr32 x 3)

/-- SHA-256 small sigma1. -/
def ssig1 (x : Nat) : Nat := Nat.xor (Nat.xor (rotr32 x 17) (rotr32 x 19)) (shr32 x 10)

/-- The 64 SHA-256 round constants. -/
def sha2K : List Nat :=
  [1116352408, 1899447441, 3049323471, 3921009573, 961987163, 1508970993,
   2453635748, 2870763221, 3624381080, 310598401, 607225278, 1426881987,
   1925078388, 2162078206, 2614888103, 3248222580, 3835390401, 4022224774,
   264347078, 604807628, 770255983, 1249150122, 1555081692, 1996064986,
   2554220882, 2821834349, 2952996808, 3210313671, 3336571891, 3584528711,
   113926993, 338241895, 666307205, 773529912, 1294757372, 1396182291,
   1695183700, 1986661051, 2177026350, 2456956037, 2730485921, 2820302411,
   3259730800, 3345764771, 3516065817, 3600352804, 4094571909, 275423344,
   430227734, 506948616, 659060556, 883997877, 958139571, 1322822218,
   1537002063, 1747873779, 1955562222, 2024104815, 2227730452, 2361852424,
   2428436474, 2756734187, 3204031479, 3329325298]

/-- The eight working/state words of SHA-256. -/
structure Words8 : Type where
  w0 : Nat
  w1 : Nat
  w2 : Nat
  w3 : Nat
  w4 : Nat
  w5 : Nat
  w6 : Nat
  w7 : Nat

/-- The SHA-256 initial hash value. -/
def sha2init : Words8 :=
  ⟨1779033703, 3144134277, 1013904242, 2773480762,
   1359893119, 2600822924, 528734635, 1541459225⟩

/-- One SHA-256 compression round. -/
def roundStep (st : Words8) (wk : Nat × Nat) : Words8 :=
  let t1 := w32 (st.w7 + bsig1 st.w4 + sha2ch st.w4 st.w5 st.w6 + wk.1 + wk.2)
  let t2 := w32 (bsig0 st.w0 + sha2maj st.w0 st.w1 st.w2)
  ⟨w32 (t1 + t2), st.w0, st.w1, st.w2, w32 (st.w3 + t1), st.w4, st.w5, st.w6⟩

/-- The sixteen 32-bit big-endian words of one 64-byte block. -/
def wordsOfBlock (block : List Nat) : List Nat :=
  (List.range 16).map (fun i =>
    block.getD (4 * i) 0 * 16777216 + block.getD (4 * i + 1) 0 * 65536 +
      block.getD (4 * i + 2) 0 * 256 + block.getD (4 * i + 3) 0)

/-- Extend the message schedule by `n` further words. -/
def extendW : List Nat → Nat → List Nat
  | w, 0 => w
  | w, n + 1 =>
      extendW
        (w ++ [w32 (ssig1 (w.getD (w.length - 2) 0) + w.getD (w.length - 7) 0 +
          ssig0 (w.getD (w.length - 15) 0) + w.getD (w.length - 16) 0)]) n

/-- Compress one 64-byte block into the running hash value. -/
def sha2compress (H : Words8) (block : List Nat) : Words8 :=
  let ws := extendW (wordsOfBlock block) 48
  let st := (List.zip ws sha2K).foldl roundStep H
  ⟨w32 (H.w0 + st.w0), w32 (H.w1 + st.w1), w32 (H.w2 + st.w2), w32 (H.w3 + st.w3),
   w32 (H.w4 + st.w4), w32 (H.w5 + st.w5), w32 (H.w6 + st.w6), w32 (H.w7 + st.w7)⟩

/-- SHA-256 padding: `0x80`, zeros to 56 mod 64, then the bit length as
eight big-endian bytes. -/
def padMessage (msg : List Nat) : List Nat :=
  let len := msg.length
  msg ++ [128] ++ List.replicate ((119 - len % 64) % 64) 0 ++
    (List.range 8).map (fun i => 8 * len / 2 ^ (8 * (7 - i)) % 256)

/-- Split the padded message into 64-byte blocks. -/
def toBlocks (l : List Nat) : List (List Nat) :=
  if h : l = [] then [] else l.take 64 :: toBlocks (l.drop 64)
termination_by l.length
decreasing_by
  simp only [List.length_drop]
  exact Nat.sub_lt (List.length_pos.mpr h) (by norm_num)

/-- The eight final hash words of SHA-256 over a byte string. -/
def sha256Words (msg : List Nat) : Words8 :=
  (toBlocks (padMessage msg)).foldl sha2compress sha2init

/-- The digest words as 64 lowercase hex characters. -/
def hexW8 (H : Words8) : String :=
  hex8 H.w0 ++ hex8 H.w1 ++ hex8 H.w2 ++ hex8 H.w3 ++
    hex8 H.w4 ++ hex8 H.w5 ++ hex8 H.w6 ++ hex8 H.w7

/-- `hashlib.sha256(...).hexdigest()`: the digest as 64 lowercase hex
characters. -/
def sha256hex (msg : List Nat) : String := hexW8 (sha256Words msg)

/-- The `compute_fields_hash` utility of `ai_generators.py` (lines 233-243):
SHA-256 hex digest of the canonical JSON dump of all document fields. -/
def compute_fields_hash (documents_fields : List (Option Bag)) : String :=
  sha256hex (strBytes (canonicalFieldsJson documents_fields))

/-- All eight hash words fit in 32 bits. -/
def boundedW8 (H : Words8) : Prop :=
  H.w0 < 4294967296 ∧ H.w1 < 4294967296 ∧ H.w2 < 4294967296 ∧ H.w3 < 4294967296 ∧
    H.w4 < 4294967296 ∧ H.w5 < 4294967296 ∧ H.w6 < 4294967296 ∧ H.w7 < 4294967296

theorem sha2compress_bounded (H : Words8) (b : List Nat) :
    boundedW8 (sha2compress H b) := by
  refine ⟨?_, ?_, ?_, ?_, ?_, ?_, ?_, ?_⟩ <;> exact Nat.mod_lt _ (by norm_num)

theorem foldl_sha2compress_bounded :
    ∀ (bs : List (List Nat)) (acc : Words8), boundedW8 acc →
      boundedW8 (bs.foldl sha2compress acc) := by
  intro bs
  induction bs with
  | nil => exact fun acc h => h
  | cons b t ih =>
      intro acc hacc
      rw [List.foldl_cons]
      exact ih (sha2compress acc b) (sha2compress_bounded acc b)

theorem sha256Words_bounded (msg : List Nat) : boundedW8 (sha256Words msg) := by
  unfold sha256Words
  exact foldl_sha2compress_bounded _ _
    (by refine ⟨?_, ?_, ?_, ?_, ?_, ?_, ?_, ?_⟩ <;> norm_num [sha2init])

theorem words8_ext (H1 H2 : Words8) (h0 : H1.w0 = H2.w0) (h1 : H1.w1 = H2.w1)
    (h2 : H1.w2 = H2.w2) (h3 : H1.w3 = H2.w3) (h4 : H1.w4 = H2.w4)
    (h5 : H1.w5 = H2.w5) (h6 : H1.w6 = H2.w6) (h7 : H1.w7 = H2.w7) : H1 = H2 := by
  cases H1
  cases H2
  simp only at h0 h1 h2 h3 h4 h5 h6 h7
  rw [h0, h1, h2, h3, h4, h5, h6, h7]

/-- The digest words packaged as an element of a finite type: the digest can
take at most `(2^32)^8 = 2^256` values. -/
def sha256Fin (msg : List Nat) :
    Fin 4294967296 × Fin 4294967296 × Fin 4294967296 × Fin 4294967296 ×
      Fin 4294967296 × Fin 4294967296 × Fin 4294967296 × Fin 4294967296 :=
  ⟨⟨(sha256Words msg).w0, (sha256Words_bounded msg).1⟩,
   ⟨(sha256Words msg).w1, (sha256Words_bounded msg).2.1⟩,
   ⟨(sha256Words msg).w2, (sha256Words_bounded msg).2.2.1⟩,
   ⟨(sha256Words msg).w3, (sha256Words_bounded msg).2.2.2.1⟩,
   ⟨(sha256Words msg).w4, (sha256Words_bounded msg).2.2.2.2.1⟩,
   ⟨(sha256Words msg).w5, (sha256Words_bounded msg).2.2.2.2.2.1⟩,
   ⟨(sha256Words msg).w6, (sha256Words_bounded msg).2.2.2.2.2.2.1⟩,
   ⟨(sha256Words msg).w7, (sha256Words_bounded msg).2.2.2.2.2.2.2⟩⟩

/-- A family of pairwise distinct single-document field states. -/
def fingerInput (n : Nat) : List (Option Bag) :=
  [some [("n", Val.vint (Int.ofNat n))]]

/-- C4 counterexample: the fingerprint does NOT differ whenever the fields
differ — a fixed-length 256-bit digest cannot be injective on the unbounded
space of field states, so two distinct field states share a fingerprint
(pigeonhole over the `2^256` possible digests). -/
theorem C4_fingerprint_counterexample :
    ¬ (∀ A B : List (Option Bag), A ≠ B →
        compute_fields_hash A ≠ compute_fields_hash B) := by
  intro hdist
  obtain ⟨n, m, hnm, heq⟩ :=
    Finite.exists_ne_map_eq_of_infinite
      (fun k : Nat => sha256Fin (strBytes (canonicalFieldsJson (fingerInput k))))
  have hA : fingerInput n ≠ fingerInput m := by
    intro hc
    exact hnm (by simpa [fingerInput] using hc)
  apply hdist (fingerInput n) (fingerInput m) hA
  have e0 : (sha256Words (strBytes (canonicalFieldsJson (fingerInput n)))).w0
      = (sha256Words (strBytes (canonicalFieldsJson (fingerInput m)))).w0 :=
    congrArg (fun t => t.1.val) heq
  have e1 : (sha256Words (strBytes (canonicalFieldsJson (fingerInput n)))).w1
      = (sha256Words (strBytes (canonicalFieldsJson (fingerInput m)))).w1 :=
    congrArg (fun t => t.2.1.val) heq
  have e2 : (sha256Words (strBytes (canonicalFieldsJson (fingerInput n)))).w2
      = (sha256Words (strBytes (canonicalFieldsJson (fingerInput m)))).w2 :=
    congrArg (fun t => t.2.2.1.val) heq
  have e3 : (sha256Words (strBytes (canonicalFieldsJson (fingerInput n)))).w3
      = (sha256Words (strBytes (canonicalFieldsJson (fingerInput m)))).w3 :=
    congrArg (fun t => t.2.2.2.1.val) heq
  have e4 : (sha256Words (strBytes (canonicalFieldsJson (fingerInput n)))).w4
      = (sha256Words (strBytes (canonicalFieldsJson (fingerInput m)))).w4 :=
    congrArg (fun t => t.2.2.2.2.1.val) heq
  have e5 : (sha256Words (strBytes (canonicalFieldsJson (fingerInput n)))).w5
      = (sha256Words (strBytes (canonicalFieldsJson (fingerInput m)))).w5 :=
    congrArg (fun t => t.2.2.2.2.2.1.val) heq
  have e6 : (sha256Words (strBytes (canonicalFieldsJson (fingerInput n)))).w6
      = (sha256Words (strBytes (canonicalFieldsJson (fingerInput m)))).w6 :=
    congrArg (fun t => t.2.2.2.2.2.2.1.val) heq
  have e7 : (sha256Words (strBytes (canonicalFieldsJson (fingerInput n)))).w7
      = (sha256Words (strBytes (canonicalFieldsJson (fingerInput m)))).w7 :=
    congrArg (fun t => t.2.2.2.2.2.2.2.val) heq
  have hW : sha256Words (strBytes (canonicalFieldsJson (fingerInput n)))
      = sha256Words (strBytes (canonicalFieldsJson (fingerInput m))) :=
    words8_ext _ _ e0 e1 e2 e3 e4 e5 e6 e7
  exact congrArg hexW8 hW

theorem serializePairs_eq_map (l : List (String × Val)) :
    serializePairs l = l.map (fun p => (p.1, serializeVal p.2)) := by
  induction l with
  | nil => rfl
  | cons hd tl ih =>
      obtain ⟨k, v⟩ := hd
      simp [serializePairs, ih]

theorem serializePairs_keys (l : List (String × Val)) :
    (serializePairs l).map Prod.fst = alKeys l := by
  induction l with
  | nil => rfl
  | cons hd tl ih =>
      obtain ⟨k, v⟩ := hd
      simp [serializePairs, alKeys] at ih ⊢
      exact ih

theorem sorted_perm_unique :
    ∀ (l1 l2 : List (String × String)), l1.Perm l2 →
      l1.Sorted keyLE → l2.Sorted keyLE → (l1.map Prod.fst).Nodup → l1 = l2 := by
  intro l1
  induction l1 with
  | nil =>
      intro l2 hp _ _ _
      exact (hp.symm.eq_nil).symm
  | cons a t1 ih =>
      intro l2 hp hs1 hs2 hnd
      cases l2 with
      | nil => simpa using hp.length_eq
      | cons b t2 =>
          have hab : a = b := by
            have ha2 : a ∈ b :: t2 := hp.mem_iff.mp (List.mem_cons_self a t1)
            have hb1 : b ∈ a :: t1 := hp.symm.mem_iff.mp (List.mem_cons_self b t2)
            rcases List.mem_cons.mp ha2 with h1 | h1
            · exact h1
            · rcases List.mem_cons.mp hb1 with h2 | h2
              · exact h2.symm
              · exfalso
                have hba : keyLE b a := List.rel_of_sorted_cons hs2 a h1
                have hab2 : keyLE a b := List.rel_of_sorted_cons hs1 b h2
                have hk : a.1 = b.1 := le_antisymm hab2 hba
                simp only [List.map_cons, List.nodup_cons] at hnd
                exact hnd.1 (by rw [hk]; exact List.mem_map_of_mem Prod.fst h2)
          subst hab
          have ht : t1.Perm t2 := hp.cons_inv
          have htl : t1 = t2 := by
            apply ih t2 ht hs1.of_cons hs2.of_cons
            simp only [List.map_cons, List.nodup_cons] at hnd
            exact hnd.2
          rw [htl]

theorem serializeVal_vdict_perm (ba bb : List (String × Val)) (hperm : ba.Perm bb)
    (hnd : (alKeys ba).Nodup) :
    serializeVal (Val.vdict ba) = serializeVal (Val.vdict bb) := by
  have hsp : (serializePairs ba).Perm (serializePairs bb) := by
    rw [serializePairs_eq_map, serializePairs_eq_map]
    exact hperm.map _
  have hndp : ((serializePairs ba).map Prod.fst).Nodup := by
    rw [serializePairs_keys]
    exact hnd
  have hsorteq : (serializePairs ba).insertionSort keyLE
      = (serializePairs bb).insertionSort keyLE := by
    apply sorted_perm_unique
    · exact (List.perm_insertionSort keyLE _).trans
        (hsp.trans (List.perm_insertionSort keyLE _).symm)
    · exact List.sorted_insertionSort keyLE _
    · exact List.sorted_insertionSort keyLE _
    · exact (((List.perm_insertionSort keyLE _).map Prod.fst).nodup_iff).mpr hndp
  simp only [serializeVal]
  rw [hsorteq]

/-- Two per-document field entries that are the same dict up to the insertion
order of its keys (or both absent). -/
def bagReorder (a b : Option Bag) : Prop :=
  (a = none ∧ b = none) ∨
    ∃ ba bb, a = some ba ∧ b = some bb ∧ ba.Perm bb ∧ (alKeys ba).Nodup

theorem serializeListVals_congr (A B : List (Option Bag))
    (h : List.Forall₂ bagReorder A B) :
    serializeListVals (A.map embedFields) = serializeListVals (B.map embedFields) := by
  induction h with
  | nil => rfl
  | cons hab _ ih =>
      simp only [List.map_cons, serializeListVals]
      rw [ih]
      rcases hab with ⟨ha, hb⟩ | ⟨ba, bb, ha, hb, hperm, hnd⟩
      · rw [ha, hb]
      · rw [ha, hb]
        simp only [embedFields]
        rw [serializeVal_vdict_perm ba bb hperm hnd]

/-- C4 (amended): the fingerprint is a pure function of the field state —
trivially equal on equal inputs and stable across restarts — and is
independent of the insertion order of the keys inside any document's bag
(keys are sorted in the canonical serialisation).  Distinct field states can
share a fingerprint only through a SHA-256 collision (see the
counterexample), so "differs whenever fields differ" holds only up to such
collisions. -/
theorem C4_fingerprint_deterministic :
    (∀ A : List (Option Bag), compute_fields_hash A = compute_fields_hash A)
    ∧ (∀ A B : List (Option Bag), List.Forall₂ bagReorder A B →
        compute_fields_hash A = compute_fields_hash B) := by
  refine ⟨fun A => rfl, ?_⟩
  intro A B h
  have hser : canonicalFieldsJson A = canonicalFieldsJson B := by
    unfold canonicalFieldsJson
    simp only [serializeVal]
    rw [serializeListVals_congr A B h]
  unfold compute_fields_hash
  rw [hser]

/-- C4 witness: the same single-document bag presented in two key orders
yields one and the same fingerprint. -/
theorem C4_fingerprint_deterministic_witness :
    compute_fields_hash [some [("a", Val.vstr "1"), ("b", Val.vstr "2")]]
      = compute_fields_hash [some [("b", Val.vstr "2"), ("a", Val.vstr "1")]] :=
  C4_fingerprint_deterministic.2 _ _
    (List.Forall₂.cons
      (Or.inr ⟨_, _, rfl, rfl, List.Perm.swap _ _ _, by decide⟩)
      List.Forall₂.nil)

attribute [irreducible] compute_fields_hash

/-- A chat message row (role and content are all the model needs). -/
structure Msg : Type where
  role : String
  content : String

/-- The persisted state a generation-mode turn reads and writes: the project
columns `mode`, `status`, `last_generation_fields_hash`, the generated
artifacts, the document records and the message history. -/
structure SysState : Type where
  name : String
  mode : String
  status : String
  lastHash : Option String
  fullHtml : Option String
  llmsTxt : Option String
  aiJson : Option Val
  docs : List DocRec
  messages : List Msg

/-- The dict `_handle_design_mode` returns (the assistant message content,
`all_complete`, `design_generation_triggered`, whether a project snapshot is
included). -/
structure TurnResult : Type where
  assistantContent : String
  allComplete : Bool
  designGenerationTriggered : Bool
  projectIncluded : Bool

/-- The arguments `_handle_design_mode` hands to `_background_generate`. -/
structure BGInput : Type where
  projectName : String
  allFields : AListV Bag
  currentHash : String
  docsNeeding : List (Nat × String × Bag)

/-- Outcomes of the external generation calls of one background attempt:
`none` models the call raising.  `docContents` is aligned with
`docsNeeding`; a `some ""` is a call that succeeded with empty output. -/
structure BGOracle : Type where
  htmlResult : Option String
  docContents : List (Option String)
  llmsResult : Option String

/-- The `_ensure_documents_exist` helper (`chat_controller.py` lines 70-99):
append a fresh pending record with empty defaults for every missing type, in
the `DOCUMENT_TYPE_TITLES` order.  `fresh` stands for the database-assigned
ids of the new rows. -/
def ensure_documents_exist (fresh : Nat) (docs : List DocRec) : List DocRec :=
  let existingTypes := docs.map (fun d => d.type)
  docs ++ ((DOCUMENT_TYPE_TITLES.filter
      (fun p => !(existingTypes.contains p.1))).enum.map
      (fun ie => { id := fresh + ie.1, type := ie.2.1, title := ie.2.2,
                   content := "", status := "pending", fields := none }))

/-- The `generate_ai_json` transformation of `ai_generators.py` (lines
361-384): a machine-readable dict, no external call. -/
def generate_ai_json (project_name : String) (all_fields : AListV Bag) : Val :=
  Val.vdict
    [("project_name", Val.vstr project_name),
     ("documents", Val.vdict (all_fields.map (fun p =>
        (p.1, Val.vdict
          [("title", Val.vstr ((alGet DOCUMENT_TYPE_TITLES p.1).getD p.1)),
           ("fields", Val.vdict p.2)]))))]

/-- One entry of the background per-document loop (`_background_generate`
lines 310-318): a raised call (`none`) or empty content leaves the record
untouched, otherwise the record with this id gets the content and becomes
ready. -/
def applyDocUpdate (docs : List DocRec) (did : Nat) (res : Option String) :
    List DocRec :=
  match res with
  | none => docs
  | some c =>
      if c = "" then docs
      else docs.map (fun d =>
        if d.id = did then { d with content := c, status := "ready" } else d)

/-- The whole background per-document loop. -/
def applyDocUpdates (docs : List DocRec) (updates : List (Nat × Option String)) :
    List DocRec :=
  updates.foldl (fun ds u => applyDocUpdate ds u.1 u.2) docs

/-- The failure message of `_background_generate`. -/
def failMsg : Msg := ⟨"assistant", "Design generation encountered an error. Please try again."⟩

/-- The completion message of `_background_generate`. -/
def doneMsg : Msg := ⟨"assistant", "Your pitch deck is ready! Click **Pitchdeck** above to view it."⟩

/-- The `_handle_design_mode` no-change reply. -/
def noChangesText : String :=
  "No changes detected in your project data. The current design is up to date."

/-- The `_handle_design_mode` in-progress reply. -/
def generatingText : String :=
  "Generating your pitch deck — this will take about a minute. You\x27ll see the result appear shortly."

/-- The `_background_generate` coroutine (`chat_controller.py` lines
251-356): a raised composite-HTML call falls to the outer handler, which
only resets the status to draft and appends the failure message; on success
every artifact is persisted, ready documents updated, the fingerprint stored
and the status reset to draft. -/
def background_generate (st : SysState) (inp : BGInput) (orc : BGOracle) :
    SysState :=
  match orc.htmlResult with
  | none =>
      { st with status := "draft", messages := st.messages ++ [failMsg] }
  | some full_html =>
      let docs1 := applyDocUpdates st.docs
        ((inp.docsNeeding.map (fun t => t.1)).zip orc.docContents)
      let llms1 := match orc.llmsResult with
        | none => st.llmsTxt
        | some l => if l = "" then st.llmsTxt else some l
      { st with
          fullHtml := some full_html,
          docs := docs1,
          llmsTxt := llms1,
          aiJson := some (generate_ai_json inp.projectName inp.allFields),
          lastHash := some inp.currentHash,
          status := "draft",
          messages := st.messages ++ [doneMsg] }

/-- The `_handle_design_mode` handler (`chat_controller.py` lines 362-469):
append the user message, ensure documents, compare the fingerprint of the
current field bags with the stored one; equal means a no-change reply with
nothing spawned, different means status `generating`, an in-progress reply
and a spawned background task (the returned `BGInput`). -/
def handle_design_mode (fresh : Nat) (st : SysState) (content : String) :
    TurnResult × SysState × Option BGInput :=
  let st1 := { st with messages := st.messages ++ [Msg.mk "user" content] }
  let documents := ensure_documents_exist fresh st1.docs
  let st2 := { st1 with docs := documents }
  let current_hash := compute_fields_hash (documents.map (fun d => d.fields))
  if st2.lastHash = some current_hash then
    let st3 := { st2 with messages := st2.messages ++ [Msg.mk "assistant" noChangesText] }
    (⟨noChangesText, check_all_complete (build_extraction_state documents),
       false, false⟩, st3, none)
  else
    let st3 := { st2 with status := "generating" }
    let all_fields := documents.map (fun d => (d.type, d.fields.getD []))
    let needing := (documents.filter (fun d => d.content.trim = "")).map
        (fun d => (d.id, d.type, d.fields.getD []))
    let st4 := { st3 with messages := st3.messages ++ [Msg.mk "assistant" generatingText] }
    (⟨generatingText, check_all_complete (build_extraction_state documents),
       true, true⟩, st4, some ⟨st.name, all_fields, current_hash, needing⟩)

/-- The structured 422 detail of the completion-gate rejection
(`send_message`, lines 520-527). -/
structure GateDetail : Type where
  message : String
  incomplete_count : Nat
  incomplete_docs : List String

/-- The design-mode branch of `send_message` (lines 489-528): persist a mode
switch, ensure documents, re-evaluate the completion gate; rejection raises
a 422 with the structured detail, acceptance dispatches to
`_handle_design_mode`. -/
def send_message_design (fresh : Nat) (st : SysState) (content : String) :
    Except GateDetail (TurnResult × SysState × Option BGInput) :=
  let st1 := if st.mode ≠ "design" then { st with mode := "design" } else st
  let documents := ensure_documents_exist fresh st1.docs
  let st2 := { st1 with docs := documents }
  let extraction_state := build_extraction_state documents
  if check_all_complete extraction_state then
    Except.ok (handle_design_mode fresh st2 content)
  else
    Except.error
      { message := "All 9 documents must be complete before generating designs.",
        incomplete_count := (extraction_state.filter
          (fun p => !truthyOpt (some p.2.is_complete))).length,
        incomplete_docs := (extraction_state.filter
          (fun p => !truthyOpt (some p.2.is_complete))).map (fun p => p.1) }

/-- One whole generation-mode request as the HTTP layer runs it: the
`get_db` dependency commits on success and rolls the session back when the
controller raises, so a gate rejection leaves the persisted state exactly as
it was. -/
def design_request (fresh : Nat) (st : SysState) (content : String) :
    Except GateDetail (TurnResult × SysState × Option BGInput) × SysState :=
  match send_message_design fresh st content with
  | .error d => (.error d, st)
  | .ok r => (.ok r, r.2.1)

/-- A triggering design turn followed by its background task (the sequential
composition §4.4 steps 1-7 describe). -/
def afterTriggerAndBG (fresh : Nat) (st : SysState) (content : String)
    (orc : BGOracle) : SysState :=
  match handle_design_mode fresh st content with
  | (_, st1, some inp) => background_generate st1 inp orc
  | (_, st1, none) => st1

/-- Every known document type already has a record. -/
def allTypesPresent (docs : List DocRec) : Prop :=
  ∀ p ∈ DOCUMENT_TYPE_TITLES, (docs.map (fun d => d.type)).contains p.1 = true

theorem ensure_documents_exist_of_present (fresh : Nat) (docs : List DocRec)
    (h : allTypesPresent docs) : ensure_documents_exist fresh docs = docs := by
  unfold ensure_documents_exist
  dsimp only
  have hfil : DOCUMENT_TYPE_TITLES.filter
      (fun p => !((docs.map (fun d => d.type)).contains p.1)) = [] := by
    rw [List.filter_eq_nil_iff]
    intro p hp
    rw [h p hp]
    decide
  rw [hfil]
  simp

theorem applyDocUpdate_fields (docs : List DocRec) (did : Nat) (res : Option String) :
    (applyDocUpdate docs did res).map (fun d => d.fields)
      = docs.map (fun d => d.fields) := by
  unfold applyDocUpdate
  cases res with
  | none => rfl
  | some c =>
      dsimp only
      by_cases hc : c = ""
      · rw [if_pos hc]
      · rw [if_neg hc, List.map_map]
        apply List.map_congr_left
        intro d _
        by_cases hid : d.id = did <;> simp [hid]

theorem applyDocUpdate_types (docs : List DocRec) (did : Nat) (res : Option String) :
    (applyDocUpdate docs did res).map (fun d => d.type)
      = docs.map (fun d => d.type) := by
  unfold applyDocUpdate
  cases res with
  | none => rfl
  | some c =>
      dsimp only
      by_cases hc : c = ""
      · rw [if_pos hc]
      · rw [if_neg hc, List.map_map]
        apply List.map_congr_left
        intro d _
        by_cases hid : d.id = did <;> simp [hid]

theorem applyDocUpdates_fields (updates : List (Nat × Option String)) :
    ∀ docs : List DocRec,
      (applyDocUpdates docs updates).map (fun d => d.fields)
        = docs.map (fun d => d.fields) := by
  induction updates with
  | nil => intro docs; rfl
  | cons u t ih =>
      intro docs
      show (applyDocUpdates (applyDocUpdate docs u.1 u.2) t).map _ = _
      rw [ih, applyDocUpdate_fields]

theorem applyDocUpdates_types (updates : List (Nat × Option String)) :
    ∀ docs : List DocRec,
      (applyDocUpdates docs updates).map (fun d => d.type)
        = docs.map (fun d => d.type) := by
  induction updates with
  | nil => intro docs; rfl
  | cons u t ih =>
      intro docs
      show (applyDocUpdates (applyDocUpdate docs u.1 u.2) t).map _ = _
      rw [ih, applyDocUpdate_types]

theorem allTypesPresent_of_map_type_eq (docs docs2 : List DocRec)
    (hmap : docs2.map (fun d => d.type) = docs.map (fun d => d.type))
    (h : allTypesPresent docs) : allTypesPresent docs2 := by
  intro p hp
  rw [hmap]
  exact h p hp

theorem handle_design_mode_noop (fresh : Nat) (st : SysState) (content : String)
    (hh : st.lastHash = some (compute_fields_hash
      ((ensure_documents_exist fresh st.docs).map (fun d => d.fields)))) :
    handle_design_mode fresh st content =
      (⟨noChangesText,
        check_all_complete (build_extraction_state (ensure_documents_exist fresh st.docs)),
        false, false⟩,
       { st with docs := ensure_documents_exist fresh st.docs,
                 messages := (st.messages ++ [Msg.mk "user" content])
                   ++ [Msg.mk "assistant" noChangesText] },
       none) := by
  unfold handle_design_mode
  dsimp only
  rw [if_pos hh]

theorem handle_design_mode_trigger (fresh : Nat) (st : SysState) (content : String)
    (hne : ¬ st.lastHash = some (compute_fields_hash
      ((ensure_documents_exist fresh st.docs).map (fun d => d.fields)))) :
    handle_design_mode fresh st content =
      (⟨generatingText,
        check_all_complete (build_extraction_state (ensure_documents_exist fresh st.docs)),
        true, true⟩,
       { st with status := "generating",
                 docs := ensure_documents_exist fresh st.docs,
                 messages := (st.messages ++ [Msg.mk "user" content])
                   ++ [Msg.mk "assistant" generatingText] },
       some ⟨st.name,
             (ensure_documents_exist fresh st.docs).map (fun d => (d.type, d.fields.getD [])),
             compute_fields_hash ((ensure_documents_exist fresh st.docs).map (fun d => d.fields)),
             ((ensure_documents_exist fresh st.docs).filter
                (fun d => d.content.trim = "")).map
               (fun d => (d.id, d.type, d.fields.getD []))⟩) := by
  unfold handle_design_mode
  dsimp only
  rw [if_neg hne]

theorem background_generate_success (st : SysState) (inp : BGInput) (orc : BGOracle)
    (html : String) (hh : orc.htmlResult = some html) :
    background_generate st inp orc =
      { st with
          fullHtml := some html,
          docs := applyDocUpdates st.docs
            ((inp.docsNeeding.map (fun t => t.1)).zip orc.docContents),
          llmsTxt := (match orc.llmsResult with
            | none => st.llmsTxt
            | some l => if l = "" then st.llmsTxt else some l),
          aiJson := some (generate_ai_json inp.projectName inp.allFields),
          lastHash := some inp.currentHash,
          status := "draft",
          messages := st.messages ++ [doneMsg] } := by
  unfold background_generate
  rw [hh]

theorem bg_then_turn_noop (fresh2 : Nat) (stT : SysState) (inp : BGInput)
    (orc : BGOracle) (html : String) (c2 : String)
    (hhtml : orc.htmlResult = some html)
    (hpres : allTypesPresent stT.docs)
    (hhash : some inp.currentHash
      = some (compute_fields_hash (stT.docs.map (fun d => d.fields)))) :
    (handle_design_mode fresh2 (background_generate stT inp orc) c2).2.2 = none ∧
      (handle_design_mode fresh2 (background_generate stT inp orc) c2).1.designGenerationTriggered
        = false := by
  rw [background_generate_success stT inp orc html hhtml]
  have hfields : (applyDocUpdates stT.docs
      ((inp.docsNeeding.map (fun t => t.1)).zip orc.docContents)).map (fun d => d.fields)
      = stT.docs.map (fun d => d.fields) := applyDocUpdates_fields _ _
  have htypes : (applyDocUpdates stT.docs
      ((inp.docsNeeding.map (fun t => t.1)).zip orc.docContents)).map (fun d => d.type)
      = stT.docs.map (fun d => d.type) := applyDocUpdates_types _ _
  have hpres5 : allTypesPresent (applyDocUpdates stT.docs
      ((inp.docsNeeding.map (fun t => t.1)).zip orc.docContents)) :=
    allTypesPresent_of_map_type_eq stT.docs _ htypes hpres
  have hens5 := ensure_documents_exist_of_present fresh2 _ hpres5
  have hh5 : some inp.currentHash
      = some (compute_fields_hash ((ensure_documents_exist fresh2
          (applyDocUpdates stT.docs
            ((inp.docsNeeding.map (fun t => t.1)).zip orc.docContents))).map
          (fun d => d.fields))) := by
    rw [hens5, hfields]
    exact hhash
  rw [handle_design_mode_noop fresh2 _ c2 hh5]
  exact ⟨rfl, rfl⟩

set_option maxHeartbeats 2000000 in
/-- C5: a generation-mode turn whose current-fields fingerprint equals the
stored one returns the "no changes" reply with `design_generation_triggered`
false, leaves the status and the stored fingerprint untouched and spawns no
generation work; and after a triggering turn whose background attempt
succeeds, a second turn over the unchanged fields spawns nothing, so two
triggers with unchanged fields cause exactly one set of generation calls. -/
theorem C5_idempotent_regeneration :
    (∀ (fresh : Nat) (st : SysState) (content : String),
        st.lastHash = some (compute_fields_hash
          ((ensure_documents_exist fresh st.docs).map (fun d => d.fields))) →
        ((handle_design_mode fresh st content).1.designGenerationTriggered = false
          ∧ (handle_design_mode fresh st content).1.assistantContent = noChangesText
          ∧ (handle_design_mode fresh st content).2.1.status = st.status
          ∧ (handle_design_mode fresh st content).2.1.lastHash = st.lastHash
          ∧ (handle_design_mode fresh st content).2.2 = none))
    ∧ (∀ (fresh fresh2 : Nat) (st : SysState) (c1 c2 : String) (orc : BGOracle)
          (html : String),
        allTypesPresent st.docs →
        ¬ st.lastHash = some (compute_fields_hash (st.docs.map (fun d => d.fields))) →
        orc.htmlResult = some html →
        ((handle_design_mode fresh st c1).2.2.isSome = true
          ∧ (handle_design_mode fresh2 (afterTriggerAndBG fresh st c1 orc) c2).2.2 = none
          ∧ (handle_design_mode fresh2 (afterTriggerAndBG fresh st c1 orc) c2).1.designGenerationTriggered
              = false)) := by
  constructor
  · intro fresh st content hh
    rw [handle_design_mode_noop fresh st content hh]
    exact ⟨rfl, rfl, rfl, rfl, rfl⟩
  · intro fresh fresh2 st c1 c2 orc html hpres hne hhtml
    have hens : ensure_documents_exist fresh st.docs = st.docs :=
      ensure_documents_exist_of_present fresh st.docs hpres
    have hne2 : ¬ st.lastHash = some (compute_fields_hash
        ((ensure_documents_exist fresh st.docs).map (fun d => d.fields))) := by
      rw [hens]
      exact hne
    have htr := handle_design_mode_trigger fresh st c1 hne2
    have hbg : afterTriggerAndBG fresh st c1 orc =
        background_generate
          { st with status := "generating",
                    docs := ensure_documents_exist fresh st.docs,
                    messages := (st.messages ++ [Msg.mk "user" c1])
                      ++ [Msg.mk "assistant" generatingText] }
          ⟨st.name,
           (ensure_documents_exist fresh st.docs).map (fun d => (d.type, d.fields.getD [])),
           compute_fields_hash ((ensure_documents_exist fresh st.docs).map (fun d => d.fields)),
           ((ensure_documents_exist fresh st.docs).filter
              (fun d => d.content.trim = "")).map
             (fun d => (d.id, d.type, d.fields.getD []))⟩ orc := by
      unfold afterTriggerAndBG
      rw [htr]
    have hnoop := bg_then_turn_noop fresh2
      { st with status := "generating",
                docs := ensure_documents_exist fresh st.docs,
                messages := (st.messages ++ [Msg.mk "user" c1])
                  ++ [Msg.mk "assistant" generatingText] }
      ⟨st.name,
       (ensure_documents_exist fresh st.docs).map (fun d => (d.type, d.fields.getD [])),
       compute_fields_hash ((ensure_documents_exist fresh st.docs).map (fun d => d.fields)),
       ((ensure_documents_exist fresh st.docs).filter
          (fun d => d.content.trim = "")).map
         (fun d => (d.id, d.type, d.fields.getD []))⟩ orc html c2 hhtml
      (by
        show allTypesPresent (ensure_documents_exist fresh st.docs)
        rw [hens]
        exact hpres)
      rfl
    refine ⟨by rw [htr]; rfl, ?_, ?_⟩
    · rw [hbg]
      exact hnoop.1
    · rw [hbg]
      exact hnoop.2

theorem background_generate_failure (st : SysState) (inp : BGInput) (orc : BGOracle)
    (horc : orc.htmlResult = none) :
    background_generate st inp orc =
      { st with status := "draft", messages := st.messages ++ [failMsg] } := by
  unfold background_generate
  rw [horc]

/-- C6: when the composite HTML call of a background attempt raises, nothing
of the attempt is persisted — the documents, the stored artifacts and the
stored fingerprint are left exactly as they were — the status returns to
draft and the failure message is appended; and a subsequent generation-mode
turn over the unchanged fields spawns a fresh background attempt (which
re-issues the composite call). -/
theorem C6_fatal_composite_failure :
    (∀ (st : SysState) (inp : BGInput) (orc : BGOracle),
        orc.htmlResult = none →
        ((background_generate st inp orc).lastHash = st.lastHash
          ∧ (background_generate st inp orc).status = "draft"
          ∧ (background_generate st inp orc).docs = st.docs
          ∧ (background_generate st inp orc).fullHtml = st.fullHtml
          ∧ (background_generate st inp orc).llmsTxt = st.llmsTxt
          ∧ (background_generate st inp orc).aiJson = st.aiJson
          ∧ (background_generate st inp orc).messages = st.messages ++ [failMsg]))
    ∧ (∀ (fresh : Nat) (st : SysState) (inp : BGInput) (orc : BGOracle) (c2 : String),
        orc.htmlResult = none →
        ¬ st.lastHash = some (compute_fields_hash
          ((ensure_documents_exist fresh st.docs).map (fun d => d.fields))) →
        ((handle_design_mode fresh (background_generate st inp orc) c2).2.2.isSome = true
          ∧ (handle_design_mode fresh (background_generate st inp orc) c2).1.designGenerationTriggered
              = true)) := by
  constructor
  · intro st inp orc horc
    rw [background_generate_failure st inp orc horc]
    exact ⟨rfl, rfl, rfl, rfl, rfl, rfl, rfl⟩
  · intro fresh st inp orc c2 horc hne
    have htrig := handle_design_mode_trigger fresh
      { st with status := "draft", messages := st.messages ++ [failMsg] } c2 hne
    rw [background_generate_failure st inp orc horc, htrig]
    exact ⟨rfl, rfl⟩

/-- C6 witness: a concrete failed attempt followed by a re-trigger. -/
theorem C6_fatal_composite_failure_witness :
    ((background_generate
        { name := "p", mode := "design", status := "generating",
          lastHash := none, fullHtml := none, llmsTxt := none, aiJson := none,
          docs := [], messages := [] }
        ⟨"p", [], "h0", []⟩ ⟨none, [], none⟩).lastHash = none
      ∧ (background_generate
          { name := "p", mode := "design", status := "generating",
            lastHash := none, fullHtml := none, llmsTxt := none, aiJson := none,
            docs := [], messages := [] }
          ⟨"p", [], "h0", []⟩ ⟨none, [], none⟩).status = "draft")
    ∧ (handle_design_mode 7
        (background_generate
          { name := "q", mode := "design", status := "generating",
            lastHash := none, fullHtml := none, llmsTxt := none, aiJson := none,
            docs := [], messages := [] }
          ⟨"q", [], "h1", []⟩ ⟨none, [], none⟩) "again").2.2.isSome = true := by
  refine ⟨⟨?_, ?_⟩, ?_⟩
  · exact ((C6_fatal_composite_failure.1 _ _ _ rfl).1).trans rfl
  · exact (C6_fatal_composite_failure.1 _ _ _ rfl).2.1
  · exact (C6_fatal_composite_failure.2 7 _ _ _ "again" rfl (by simp)).1

/-- `db.get(ProjectDocument, doc_id)`: the record with the given id. -/
def findDoc (docs : List DocRec) (did : Nat) : Option DocRec :=
  docs.find? (fun d => d.id == did)

/-- Lookup of a per-document outcome by document id. -/
def updLookup : List (Nat × Option String) → Nat → Option (Option String)
  | [], _ => none
  | (k, v) :: rest, did => if k = did then some v else updLookup rest did

theorem findDoc_update_map (docs : List DocRec) (did did2 : Nat) (c : String) :
    findDoc (docs.map (fun d =>
        if d.id = did then { d with content := c, status := "ready" } else d)) did2
      = (if did = did2
          then (findDoc docs did2).map
            (fun d => { d with content := c, status := "ready" })
          else findDoc docs did2) := by
  induction docs with
  | nil => by_cases h : did = did2 <;> simp [findDoc, h]
  | cons d t ih =>
      have hupdid : (if d.id = did
          then { d with content := c, status := "ready" } else d).id = d.id := by
        by_cases h : d.id = did <;> simp [h]
      by_cases hd2 : d.id = did2
      · rw [List.map_cons]
        unfold findDoc
        rw [List.find?_cons_of_pos _ (by rw [hupdid]; simp [hd2]),
            List.find?_cons_of_pos _ (by simp [hd2])]
        by_cases h : did = did2
        · rw [if_pos h]
          have hdd : d.id = did := by
            rw [hd2, h]
          simp [hdd]
        · rw [if_neg h]
          have hnid : ¬ d.id = did := by
            intro hc
            rw [hc] at hd2
            exact h hd2
          simp [hnid]
      · rw [List.map_cons]
        unfold findDoc
        rw [List.find?_cons_of_neg _ (by rw [hupdid]; simp [hd2]),
            List.find?_cons_of_neg _ (by simp [hd2])]
        unfold findDoc at ih
        exact ih

theorem findDoc_applyDocUpdate (docs : List DocRec) (did : Nat)
    (res : Option String) (did2 : Nat) :
    findDoc (applyDocUpdate docs did res) did2 =
      (match res with
       | none => findDoc docs did2
       | some c =>
           if c = "" then findDoc docs did2
           else if did = did2
             then (findDoc docs did2).map
               (fun d => { d with content := c, status := "ready" })
             else findDoc docs did2) := by
  cases res with
  | none => rfl
  | some c =>
      dsimp only [applyDocUpdate]
      by_cases hc : c = ""
      · rw [if_pos hc, if_pos hc]
      · rw [if_neg hc, if_neg hc, findDoc_update_map]

theorem findDoc_applyDocUpdates_not_mem (updates : List (Nat × Option String)) :
    ∀ (docs : List DocRec) (did : Nat), did ∉ updates.map Prod.fst →
      findDoc (applyDocUpdates docs updates) did = findDoc docs did := by
  induction updates with
  | nil => intro docs did _; rfl
  | cons u t ih =>
      intro docs did hmem
      obtain ⟨k, res⟩ := u
      simp only [List.map_cons, List.mem_cons] at hmem
      push_neg at hmem
      show findDoc (applyDocUpdates (applyDocUpdate docs k res) t) did = _
      rw [ih _ _ hmem.2, findDoc_applyDocUpdate]
      cases res with
      | none => rfl
      | some c =>
          dsimp only
          by_cases hc : c = ""
          · rw [if_pos hc]
          · rw [if_neg hc, if_neg (fun h => hmem.1 h.symm)]

theorem updLookup_cons_self (k : Nat) (v : Option String)
    (t : List (Nat × Option String)) : updLookup ((k, v) :: t) k = some v := by
  simp [updLookup]

theorem updLookup_cons_ne (k : Nat) (v : Option String)
    (t : List (Nat × Option String)) (did : Nat) (hk : ¬ k = did) :
    updLookup ((k, v) :: t) did = updLookup t did := by
  simp [updLookup, hk]

theorem findDoc_applyDocUpdates (updates : List (Nat × Option String)) :
    ∀ (docs : List DocRec) (did : Nat), (updates.map Prod.fst).Nodup →
      findDoc (applyDocUpdates docs updates) did =
        (match updLookup updates did with
         | none => findDoc docs did
         | some none => findDoc docs did
         | some (some c) =>
             if c = "" then findDoc docs did
             else (findDoc docs did).map
               (fun d => { d with content := c, status := "ready" })) := by
  induction updates with
  | nil => intro docs did _; rfl
  | cons u t ih =>
      intro docs did hnd
      obtain ⟨k, res⟩ := u
      simp only [List.map_cons, List.nodup_cons] at hnd
      obtain ⟨hknotin, hnd2⟩ := hnd
      show findDoc (applyDocUpdates (applyDocUpdate docs k res) t) did = _
      by_cases hk : k = did
      · subst hk
        rw [findDoc_applyDocUpdates_not_mem t _ _ hknotin, findDoc_applyDocUpdate,
            updLookup_cons_self]
        cases res with
        | none => rfl
        | some c =>
            dsimp only
            by_cases hc : c = ""
            · rw [if_pos hc, if_pos hc]
            · rw [if_neg hc, if_neg hc, if_pos rfl]
      · rw [ih _ _ hnd2]
        have hne : findDoc (applyDocUpdate docs k res) did = findDoc docs did := by
          rw [findDoc_applyDocUpdate]
          cases res with
          | none => rfl
          | some c =>
              dsimp only
              by_cases hc : c = ""
              · rw [if_pos hc]
              · rw [if_neg hc, if_neg hk]
        rw [updLookup_cons_ne _ _ _ _ hk]
        cases h : updLookup t did with
        | none => rw [hne]
        | some r =>
            cases r with
            | none => rw [hne]
            | some c =>
                dsimp only
                by_cases hc : c = ""
                · rw [if_pos hc, if_pos hc, hne]
                · rw [if_neg hc, if_neg hc, hne]

theorem updLookup_of_mem (updates : List (Nat × Option String)) (did : Nat)
    (res : Option String) :
    (did, res) ∈ updates → (updates.map Prod.fst).Nodup →
      updLookup updates did = some res := by
  induction updates with
  | nil => intro h _; cases h
  | cons u t ih =>
      intro hmem hnd
      obtain ⟨k, v⟩ := u
      simp only [List.map_cons, List.nodup_cons] at hnd
      rcases List.mem_cons.mp hmem with h | h
      · cases h
        simp [updLookup]
      · have hk : ¬ k = did := by
          intro hc
          subst hc
          exact hnd.1 (List.mem_map_of_mem Prod.fst h)
        simp only [updLookup, if_neg hk]
        exact ih h hnd.2

theorem nodup_map_fst_zip {α β : Type} :
    ∀ (l1 : List α) (l2 : List β), l1.Nodup → ((l1.zip l2).map Prod.fst).Nodup := by
  intro l1
  induction l1 with
  | nil => intro l2 _; simp
  | cons a t ih =>
      intro l2 hnd
      cases l2 with
      | nil => simp
      | cons b t2 =>
          simp only [List.zip_cons_cons, List.map_cons, List.nodup_cons] at hnd ⊢
          refine ⟨?_, ih t2 hnd.2⟩
          intro hmem
          obtain ⟨p, hp, hpa⟩ := List.mem_map.mp hmem
          have hpz := List.of_mem_zip hp
          exact hnd.1 (by rw [← hpa] at hnd ⊢; exact hpz.1)

/-- C7 (amended): when the composite call succeeds, per-document failures
are isolated — a document whose prose call raised is left untouched, every
document whose prose call succeeded with non-empty content gets that content
and becomes ready, the new fingerprint is stored and the status returns to
draft.  (A call that succeeds with empty output is also skipped; see the
counterexample.) -/
theorem C7_partial_failure_isolation :
    ∀ (st : SysState) (inp : BGInput) (orc : BGOracle) (html : String),
      orc.htmlResult = some html →
      (inp.docsNeeding.map (fun t => t.1)).Nodup →
      ((background_generate st inp orc).lastHash = some inp.currentHash
        ∧ (background_generate st inp orc).status = "draft"
        ∧ (∀ did : Nat,
            (did, (none : Option String)) ∈
              (inp.docsNeeding.map (fun t => t.1)).zip orc.docContents →
            findDoc (background_generate st inp orc).docs did = findDoc st.docs did)
        ∧ (∀ (did : Nat) (c : String),
            (did, some c) ∈
              (inp.docsNeeding.map (fun t => t.1)).zip orc.docContents →
            ¬ c = "" →
            findDoc (background_generate st inp orc).docs did
              = (findDoc st.docs did).map
                  (fun d => { d with content := c, status := "ready" }))) := by
  intro st inp orc html hhtml hnd
  have hndz : (((inp.docsNeeding.map (fun t => t.1)).zip orc.docContents).map
      Prod.fst).Nodup :=
    nodup_map_fst_zip _ _ hnd
  rw [background_generate_success st inp orc html hhtml]
  refine ⟨rfl, rfl, ?_, ?_⟩
  · intro did hmem
    show findDoc (applyDocUpdates st.docs _) did = _
    rw [findDoc_applyDocUpdates _ _ _ hndz, updLookup_of_mem _ _ _ hmem hndz]
  · intro did c hmem hc
    show findDoc (applyDocUpdates st.docs _) did = _
    rw [findDoc_applyDocUpdates _ _ _ hndz, updLookup_of_mem _ _ _ hmem hndz]
    dsimp only
    rw [if_neg hc]

/-- Concrete two-document state for the C7 counterexample and witness. -/
def twoDocState : SysState :=
  { name := "p", mode := "design", status := "generating",
    lastHash := none, fullHtml := none, llmsTxt := none, aiJson := none,
    docs := [{ id := 1, type := "timeline", title := "Timeline", content := "",
               status := "pending", fields := none },
             { id := 2, type := "swot-analysis", title := "SWOT Analysis",
               content := "", status := "pending", fields := none }],
    messages := [] }

/-- The background input for the two documents. -/
def twoDocInput : BGInput :=
  ⟨"p", [], "h2", [(1, "timeline", []), (2, "swot-analysis", [])]⟩

/-- Oracle in which document 1's prose call raises and document 2's call
succeeds but returns the empty string. -/
def emptySuccessOracle : BGOracle := ⟨some "<html>", [none, some ""], none⟩

/-- C7 counterexample: document 2's prose call succeeded (returning the
empty string) while document 1's failed, yet document 2's status is NOT set
to ready and its content is not persisted — the loop's truthiness check
`elif content:` skips an empty success, so "every other document whose
prose-generation call succeeded has its content persisted and status set to
ready" fails as stated. -/
theorem C7_partial_failure_counterexample :
    emptySuccessOracle.htmlResult = some "<html>"
    ∧ emptySuccessOracle.docContents = [none, some ""]
    ∧ (background_generate twoDocState twoDocInput emptySuccessOracle).docs.map
        (fun d => d.status) = ["pending", "pending"]
    ∧ ¬ ((background_generate twoDocState twoDocInput emptySuccessOracle).docs.map
        (fun d => d.status) = ["pending", "ready"]) := by
  refine ⟨rfl, rfl, rfl, by decide⟩

/-- Oracle in which document 1's prose call raises and document 2's call
succeeds with real content. -/
def mixedOracle : BGOracle := ⟨some "<html>", [none, some "## SWOT"], none⟩

/-- C7 witness: the isolation theorem applied to the two-document state with
one failing and one succeeding prose call. -/
theorem C7_partial_failure_isolation_witness :
    ((background_generate twoDocState twoDocInput mixedOracle).lastHash = some "h2"
      ∧ (background_generate twoDocState twoDocInput mixedOracle).status = "draft")
    ∧ findDoc (background_generate twoDocState twoDocInput mixedOracle).docs 1
        = findDoc twoDocState.docs 1
    ∧ findDoc (background_generate twoDocState twoDocInput mixedOracle).docs 2
        = (findDoc twoDocState.docs 2).map
            (fun d => { d with content := "## SWOT", status := "ready" }) := by
  have h := C7_partial_failure_isolation twoDocState twoDocInput mixedOracle
    "<html>" rfl (by decide)
  exact ⟨⟨h.1, h.2.1⟩, h.2.2.1 1 (by decide), h.2.2.2 2 "## SWOT" (by decide) (by decide)⟩

theorem send_message_design_gate_fail (fresh : Nat) (st : SysState) (content : String)
    (hgate : ¬ check_all_complete (build_extraction_state
      (ensure_documents_exist fresh st.docs)) = true) :
    send_message_design fresh st content = Except.error
      { message := "All 9 documents must be complete before generating designs.",
        incomplete_count := ((build_extraction_state
          (ensure_documents_exist fresh st.docs)).filter
          (fun p => !truthyOpt (some p.2.is_complete))).length,
        incomplete_docs := ((build_extraction_state
          (ensure_documents_exist fresh st.docs)).filter
          (fun p => !truthyOpt (some p.2.is_complete))).map (fun p => p.1) } := by
  unfold send_message_design
  by_cases hmode : st.mode ≠ "design"
  · rw [if_pos hmode]
    dsimp only
    rw [if_neg hgate]
  · rw [if_neg hmode]
    dsimp only
    rw [if_neg hgate]

/-- C8: a generation-mode turn on a project that fails the completion gate
is rejected with a structured detail — the fixed message, the count of
incomplete document types and the list of which types are incomplete, with
the count equal to the list's length — and the persisted state after the
request is exactly the state before it (the session is rolled back on the
raised 422, so not even the user's message survives; in particular no
document record, status, fingerprint or mode change is persisted). -/
theorem C8_gate_rejection :
    ∀ (fresh : Nat) (st : SysState) (content : String),
      ¬ check_all_complete (build_extraction_state
          (ensure_documents_exist fresh st.docs)) = true →
      ((design_request fresh st content).2 = st
        ∧ (design_request fresh st content).1 = Except.error
            { message := "All 9 documents must be complete before generating designs.",
              incomplete_count := ((build_extraction_state
                (ensure_documents_exist fresh st.docs)).filter
                (fun p => !truthyOpt (some p.2.is_complete))).length,
              incomplete_docs := ((build_extraction_state
                (ensure_documents_exist fresh st.docs)).filter
                (fun p => !truthyOpt (some p.2.is_complete))).map (fun p => p.1) }
        ∧ ((build_extraction_state (ensure_documents_exist fresh st.docs)).filter
              (fun p => !truthyOpt (some p.2.is_complete))).length
            = (((build_extraction_state (ensure_documents_exist fresh st.docs)).filter
              (fun p => !truthyOpt (some p.2.is_complete))).map (fun p => p.1)).length) := by
  intro fresh st content hgate
  have hsend := send_message_design_gate_fail fresh st content hgate
  unfold design_request
  rw [hsend]
  exact ⟨rfl, rfl, (List.length_map _ _).symm⟩

/-- A fresh project with no document records yet. -/
def emptyProjState : SysState :=
  { name := "p", mode := "doc", status := "draft", lastHash := none,
    fullHtml := none, llmsTxt := none, aiJson := none, docs := [], messages := [] }

/-- C8 witness: the gate rejection on a fresh project (all nine records are
backfilled incomplete inside the transaction, the 422 rolls everything
back). -/
theorem C8_gate_rejection_witness :
    (design_request 0 emptyProjState "make the deck").2 = emptyProjState
      ∧ ((design_request 0 emptyProjState "make the deck").1).isOk = false :=
  ⟨(C8_gate_rejection 0 emptyProjState "make the deck" (by decide)).1,
   by rw [(C8_gate_rejection 0 emptyProjState "make the deck" (by decide)).2.1]; rfl⟩

/-- A project whose stored fingerprint already matches its (empty) document
set. -/
def noChangeState : SysState :=
  { name := "p", mode := "design", status := "draft",
    lastHash := some (compute_fields_hash
      ((ensure_documents_exist 0 ([] : List DocRec)).map (fun d => d.fields))),
    fullHtml := none, llmsTxt := none, aiJson := none,
    docs := [], messages := [] }

/-- A project with all nine records present and no stored fingerprint. -/
def freshNineState : SysState :=
  { name := "q", mode := "design", status := "draft", lastHash := none,
    fullHtml := none, llmsTxt := none, aiJson := none,
    docs := ensure_documents_exist 0 [], messages := [] }

/-- C5 witness: a no-change turn on a fingerprint-matching project spawns
nothing, and a first trigger plus successful background run makes the second
turn a no-op. -/
theorem C5_idempotent_regeneration_witness :
    (handle_design_mode 0 noChangeState "go").2.2 = none
    ∧ (handle_design_mode 9 freshNineState "go").2.2.isSome = true
    ∧ (handle_design_mode 9
        (afterTriggerAndBG 9 freshNineState "go" ⟨some "<html>", [], none⟩)
        "again").2.2 = none :=
  ⟨(C5_idempotent_regeneration.1 0 noChangeState "go" rfl).2.2.2.2,
   (C5_idempotent_regeneration.2 9 9 freshNineState "go" "again"
      ⟨some "<html>", [], none⟩ "<html>" (by unfold allTypesPresent; decide)
      (fun hc => Option.noConfusion hc) rfl).1,
   (C5_idempotent_regeneration.2 9 9 freshNineState "go" "again"
      ⟨some "<html>", [], none⟩ "<html>" (by unfold allTypesPresent; decide)
      (fun hc => Option.noConfusion hc) rfl).2.1⟩
